import Mathlib

/-!
Shallow embedding of the analytics core of `src/stock_toolkit.py`.

The engine works on pandas objects; we embed them as follows:
* a float series that may contain NaN is a `List (Option ℚ)` (`none` = NaN);
* a NaN-free float series is a `List ℚ`;
* values that can be NaN or infinite mid-computation (RSI pipeline) use `FVal`;
* a DataFrame is a `Frame`: an ordered association list from a
  `(ticker, field)` column label to a column;
* a ticker panel for the cross-sectional functions is a
  `List (String × List ℚ)` of (ticker, close/adj-close column).

Exact rationals replace IEEE doubles except where the code's behaviour
depends on IEEE special values (division by zero in the RSI), which is
modelled explicitly by `FVal`; `Real.sqrt` is used for the Pearson
denominator.
-/

namespace StockToolkit

/-- Arithmetic mean of a list of rationals (sum divided by length;
division by zero yields 0 on the empty list, a case the rolling-window
code never produces). -/
def mean (xs : List ℚ) : ℚ := xs.sum / xs.length

/-- The trailing window of width `w` ending at index `i`:
elements at indices `i + 1 - w` through `i`. -/
def windowSliceO (xs : List (Option ℚ)) (i w : Nat) : List (Option ℚ) :=
  (xs.take (i + 1)).drop (i + 1 - w)

/-- Models pandas `Series.rolling(window=w).mean()` with the default
`min_periods = window`: position `i` is defined iff the window is full
(`w ≤ i + 1`, `1 ≤ w`) and every entry in it is non-NaN, in which case it
is the arithmetic mean of the window. Used at `src/stock_toolkit.py:60`
and (on the NaN-free gain/loss series) at lines 66-67. -/
def rollingMeanO (xs : List (Option ℚ)) (w : Nat) : List (Option ℚ) :=
  (List.range xs.length).map fun i =>
    if 1 ≤ w ∧ w ≤ i + 1 ∧ (windowSliceO xs i w).all Option.isSome then
      some (mean ((windowSliceO xs i w).filterMap id))
    else none

/-- The trailing window of a NaN-free series. -/
def windowSlice (xs : List ℚ) (i w : Nat) : List ℚ :=
  (xs.take (i + 1)).drop (i + 1 - w)

/-- `rolling(window=w).mean()` on a NaN-free series (e.g. a Close column
after the fetcher's dropna, or the gain/loss series which the
`where`-clauses make NaN-free). -/
def rollingMean (xs : List ℚ) (w : Nat) : List (Option ℚ) :=
  rollingMeanO (xs.map some) w

/-- Models `data[(ticker, 'Close')].diff(1)` (line 65): first position is
NaN, position `i ≥ 1` holds `close[i] - close[i-1]`. -/
def diffList (xs : List ℚ) : List (Option ℚ) :=
  match xs with
  | [] => []
  | _ :: tail => none :: List.zipWith (fun a b => some (b - a)) xs tail

/-- Models `delta.where(delta > 0, 0)` (line 66): keeps `delta` where it
is positive, else 0.  A NaN delta compares false, so the NaN at position 0
becomes 0 — the series is NaN-free. -/
def gainList (xs : List ℚ) : List ℚ :=
  (diffList xs).map fun d =>
    match d with
    | some v => if 0 < v then v else 0
    | none => 0

/-- Models `-delta.where(delta < 0, 0)` (line 67): `-delta` where `delta`
is negative, else 0; the NaN at position 0 becomes 0. -/
def lossList (xs : List ℚ) : List ℚ :=
  (diffList xs).map fun d =>
    match d with
    | some v => if v < 0 then -v else 0
    | none => 0

/-- An IEEE-754 double as the RSI pipeline can produce it: NaN, +∞, or a
finite value.  (Only +∞ arises: the numerator `avg_gain` is never
negative.) -/
inductive FVal where
  | nan
  | inf
  | val (q : ℚ)
  deriving DecidableEq, Repr

/-- Models `rs = gain / loss` (line 69) under IEEE semantics for the
nonnegative operands the pipeline produces: NaN in either operand gives
NaN, `g / 0` gives +∞ for `g ≠ 0` (here always `g > 0`), `0 / 0` gives
NaN, otherwise the exact quotient. -/
def rsOf : Option ℚ → Option ℚ → FVal
  | some g, some l =>
      if l = 0 then (if g = 0 then FVal.nan else FVal.inf) else FVal.val (g / l)
  | _, _ => FVal.nan

/-- Models `rsi = 100 - (100 / (1 + rs))` (line 70): NaN propagates;
`rs = +∞` gives `100 - 100/∞ = 100 - 0 = 100`; a finite `rs` (always
`≥ 0` here, so `1 + rs > 0`) gives the exact value. -/
def rsiOf : FVal → FVal
  | FVal.nan => FVal.nan
  | FVal.inf => FVal.val 100
  | FVal.val r => FVal.val (100 - 100 / (1 + r))

/-- The RSI series `calculate_rsi` (lines 63-72) writes into the
`(ticker, 'RSI')` column, as a function of the NaN-free close series:
rolling mean of gains and of losses over `w` positions, then
`rsiOf (rsOf avg_gain avg_loss)` positionwise. -/
def rsiSeries (xs : List ℚ) (w : Nat) : List FVal :=
  List.zipWith (fun g l => rsiOf (rsOf g l))
    (rollingMean (gainList xs) w) (rollingMean (lossList xs) w)

/-- Models `calculate_performance` (lines 74-78): per ticker,
`adj_close / adj_close.iloc[0] * 100` positionwise. -/
def calculate_performance (panel : List (String × List ℚ)) : List (String × List ℚ) :=
  panel.map fun p => (p.1, p.2.map fun v => v / p.2.headD 0 * 100)

/-- The series minus its mean (the centering step of Pearson
correlation as pandas `DataFrame.corr` computes it). -/
def demean (xs : List ℚ) : List ℚ := xs.map fun v => v - mean xs

/-- Sum of elementwise products (inner product of two columns). -/
def sumProd (xs ys : List ℚ) : ℚ := (List.zipWith (fun a b => a * b) xs ys).sum

/-- One entry of pandas `DataFrame.corr()`: with `dx`, `dy` the centered
series, the entry is `Σ dx·dy / √(Σ dx² · Σ dy²)` when the divisor is
nonzero, and NaN (`none`) when either series is constant (zero
divisor) — pandas `nancorr` checks `divisor != 0` and writes NaN
otherwise. -/
noncomputable def pearson? (xs ys : List ℚ) : Option ℝ :=
  if sumProd (demean xs) (demean xs) * sumProd (demean ys) (demean ys) = 0 then none
  else some ((sumProd (demean xs) (demean ys) : ℝ) /
    Real.sqrt ((sumProd (demean xs) (demean xs) * sumProd (demean ys) (demean ys) : ℚ) : ℝ))

/-- Models `calculate_correlation` (lines 80-83): `close_prices.corr()`,
the full pairwise Pearson matrix over the panel's close columns, for any
number of tickers (pandas imposes no minimum). -/
noncomputable def calculate_correlation (panel : List (String × List ℚ)) :
    List (List (Option ℝ)) :=
  panel.map fun p => panel.map fun q => pearson? p.2 q.2

/-- The guard at the top of `plot_correlation_heatmap` (lines 149-151):
the renderer, not the engine, skips (with a warning) when the matrix has
fewer than 2 rows. -/
def plot_correlation_heatmap_skips (m : List (List (Option ℝ))) : Prop :=
  m.length < 2

/-- A pandas DataFrame with `(ticker, field)` column labels, as an
ordered association list of columns. -/
structure Frame where
  cols : List ((String × String) × List (Option ℚ))
  deriving DecidableEq

/-- Column lookup, `data[(ticker, field)]`. -/
def getCol (f : Frame) (k : String × String) : Option (List (Option ℚ)) :=
  (f.cols.find? fun c => c.1 == k).map Prod.snd

/-- Column assignment `data[(ticker, field)] = v`: overwrites an existing
column in place, otherwise appends a new column at the end — pandas
`__setitem__` semantics, mutating the frame. -/
def setCol (f : Frame) (k : String × String) (v : List (Option ℚ)) : Frame :=
  if (f.cols.find? fun c => c.1 == k).isSome then
    Frame.mk (f.cols.map fun c => if c.1 == k then (k, v) else c)
  else
    Frame.mk (f.cols ++ [(k, v)])

/-- The label `f'SMA_{window}'` of line 60. -/
def smaName (w : Nat) : String := "SMA_" ++ toString w

/-- Models `calculate_moving_averages` (lines 57-61): for each window it
assigns `data[(ticker, f'SMA_{window}')] = data[(ticker,'Close')].rolling(window).mean()`
into the frame it was given, then returns that frame.  The result of the
call is the post-state of the mutated argument. -/
def calculate_moving_averages (data : Frame) (ticker : String) (windows : List Nat) :
    Frame :=
  windows.foldl (fun acc w =>
    setCol acc (ticker, smaName w)
      (rollingMeanO ((getCol acc (ticker, "Close")).getD []) w)) data

/-! ### Basic facts about the rolling mean -/

lemma rollingMeanO_length (xs : List (Option ℚ)) (w : Nat) :
    (rollingMeanO xs w).length = xs.length := by
  simp [rollingMeanO]

lemma rollingMean_length (xs : List ℚ) (w : Nat) :
    (rollingMean xs w).length = xs.length := by
  simp [rollingMean, rollingMeanO_length]

lemma windowSliceO_map_some (xs : List ℚ) (i w : Nat) :
    windowSliceO (xs.map some) i w = (windowSlice xs i w).map some := by
  unfold windowSliceO windowSlice
  rw [List.map_drop, List.map_take]

lemma all_isSome_map_some (l : List ℚ) : (l.map some).all Option.isSome = true := by
  simp [List.all_eq_true]

lemma filterMap_id_map_some (l : List ℚ) : (l.map some).filterMap id = l := by
  rw [List.filterMap_map]
  exact List.filterMap_some l

/-- On a NaN-free series, position `i` of the rolling mean is defined iff
the window is full, and is then the mean of the trailing window. -/
lemma rollingMean_getD (xs : List ℚ) (w i : Nat) (h : i < xs.length) :
    (rollingMean xs w).getD i none =
      if 1 ≤ w ∧ w ≤ i + 1 then some (mean (windowSlice xs i w)) else none := by
  have hlen : i < (rollingMean xs w).length := by rw [rollingMean_length]; exact h
  rw [List.getD_eq_getElem _ _ hlen]
  unfold rollingMean rollingMeanO
  rw [List.getElem_map, List.getElem_range]
  rw [windowSliceO_map_some, all_isSome_map_some, filterMap_id_map_some]
  simp

lemma windowSlice_length (xs : List ℚ) (i w : Nat) (hw : w ≤ i + 1) (hi : i < xs.length) :
    (windowSlice xs i w).length = w := by
  simp only [windowSlice, List.length_drop, List.length_take]
  omega

lemma windowSlice_getD (xs : List ℚ) (i w j : Nat) (hw : w ≤ i + 1) (hi : i < xs.length)
    (hj : j < w) : (windowSlice xs i w).getD j 0 = xs.getD (i + 1 - w + j) 0 := by
  have h1 : j < (windowSlice xs i w).length := by
    rw [windowSlice_length xs i w hw hi]; exact hj
  rw [List.getD_eq_getElem _ _ h1]
  unfold windowSlice
  rw [List.getElem_drop, List.getElem_take]
  exact (List.getD_eq_getElem _ _ (by omega)).symm

lemma list_sum_getD (l : List ℚ) : l.sum = ∑ j ∈ Finset.range l.length, l.getD j 0 := by
  induction l with
  | nil => simp
  | cons a t ih =>
      rw [List.sum_cons, List.length_cons, Finset.sum_range_succ']
      simp only [List.getD_cons_succ, List.getD_cons_zero]
      rw [← ih, add_comm]

lemma mean_windowSlice (xs : List ℚ) (i w : Nat) (hw : w ≤ i + 1) (hi : i < xs.length) :
    mean (windowSlice xs i w) = (∑ j ∈ Finset.Icc (i + 1 - w) i, xs.getD j 0) / (w : ℚ) := by
  unfold mean
  rw [list_sum_getD, windowSlice_length xs i w hw hi]
  congr 1
  rw [← Nat.Ico_succ_right, Finset.sum_Ico_eq_sum_range]
  have hww : i + 1 - (i + 1 - w) = w := by omega
  rw [hww]
  exact Finset.sum_congr rfl fun j hj =>
    windowSlice_getD xs i w j hw hi (Finset.mem_range.mp hj)

/-! ### Claim theorems: SMA -/

/-- C1: for every close series and window `w` with `1 ≤ w ≤ length`, the SMA
series has the same length, every position `i < w − 1` is undefined, and every
position `i ≥ w − 1` is the arithmetic mean of `close[i−w+1 .. i]`. -/
theorem sma_spec (xs : List ℚ) (w : Nat) (hw1 : 1 ≤ w) (hw2 : w ≤ xs.length) :
    (rollingMean xs w).length = xs.length ∧
    ∀ i, i < xs.length →
      (i + 1 < w → (rollingMean xs w).getD i none = none) ∧
      (w ≤ i + 1 → (rollingMean xs w).getD i none =
        some ((∑ j ∈ Finset.Icc (i + 1 - w) i, xs.getD j 0) / (w : ℚ))) := by
  refine ⟨rollingMean_length xs w, fun i hi => ⟨fun hlt => ?_, fun hge => ?_⟩⟩
  · rw [rollingMean_getD xs w i hi, if_neg]
    rintro ⟨-, h2⟩; omega
  · rw [rollingMean_getD xs w i hi, if_pos ⟨hw1, hge⟩, mean_windowSlice xs i w hge hi]

/-- Witness for C1: the spec's scenario, closes
`[10,11,12,11,10,11,12,13,14,15]`, window 3: positions 0 and 1 undefined,
position 2 equal to `(10+11+12)/3 = 11`. -/
theorem sma_spec_witness :
    (rollingMean [10, 11, 12, 11, 10, 11, 12, 13, 14, 15] 3).getD 0 none = none ∧
    (rollingMean [10, 11, 12, 11, 10, 11, 12, 13, 14, 15] 3).getD 1 none = none ∧
    (rollingMean [10, 11, 12, 11, 10, 11, 12, 13, 14, 15] 3).getD 2 none = some 11 := by
  have h := sma_spec [10, 11, 12, 11, 10, 11, 12, 13, 14, 15] 3 (by norm_num) (by norm_num)
  refine ⟨(h.2 0 (by norm_num)).1 (by norm_num), (h.2 1 (by norm_num)).1 (by norm_num), ?_⟩
  rw [(h.2 2 (by norm_num)).2 (by norm_num)]
  rw [show Finset.Icc (2 + 1 - 3) 2 = ({0, 1, 2} : Finset ℕ) by rfl]
  simp [Finset.sum_insert]
  norm_num

/-! ### Basic facts about the RSI pipeline -/

lemma diffList_length (xs : List ℚ) : (diffList xs).length = xs.length := by
  cases xs with
  | nil => rfl
  | cons x t => simp [diffList]

lemma gainList_length (xs : List ℚ) : (gainList xs).length = xs.length := by
  simp [gainList, diffList_length]

lemma lossList_length (xs : List ℚ) : (lossList xs).length = xs.length := by
  simp [lossList, diffList_length]

lemma rsiSeries_length (xs : List ℚ) (w : Nat) : (rsiSeries xs w).length = xs.length := by
  simp [rsiSeries, rollingMean_length, gainList_length, lossList_length]

/-- Position `i` of the RSI series in terms of the two rolling means. -/
lemma rsiSeries_getD (xs : List ℚ) (w i : Nat) (hi : i < xs.length) :
    (rsiSeries xs w).getD i FVal.nan =
      rsiOf (rsOf ((rollingMean (gainList xs) w).getD i none)
                  ((rollingMean (lossList xs) w).getD i none)) := by
  have h1 : i < (rsiSeries xs w).length := by rw [rsiSeries_length]; exact hi
  have hg : i < (rollingMean (gainList xs) w).length := by
    rw [rollingMean_length, gainList_length]; exact hi
  have hl : i < (rollingMean (lossList xs) w).length := by
    rw [rollingMean_length, lossList_length]; exact hi
  rw [List.getD_eq_getElem _ _ h1, List.getD_eq_getElem _ _ hg, List.getD_eq_getElem _ _ hl]
  unfold rsiSeries
  rw [List.getElem_zipWith]

/-! ### Claim theorems: window validation (C6) -/

/-- Counterexample to C6: an oversized window (5 on a series of length 3)
does not fail — `rolling(5).mean()` returns a full-length result series in
which every position is undefined.  No `InvalidWindow` condition exists in
the code. -/
theorem oversized_window_returns_series :
    rollingMean [1, 2, 3] 5 = [none, none, none] := by
  rfl

/-- C6 as amended: neither SMA nor RSI validates the window.  For an
oversized window both return a series of the input's length with every
position undefined (all NaN), rather than failing. -/
theorem oversized_window_all_undefined (xs : List ℚ) (w : Nat) (h : xs.length < w) :
    (rollingMean xs w).length = xs.length ∧
    (rsiSeries xs w).length = xs.length ∧
    (∀ i, i < xs.length → (rollingMean xs w).getD i none = none) ∧
    (∀ i, i < xs.length → (rsiSeries xs w).getD i FVal.nan = FVal.nan) := by
  have hnone : ∀ ys : List ℚ, ys.length = xs.length →
      ∀ i, i < ys.length → (rollingMean ys w).getD i none = none := by
    intro ys hys i hi
    rw [rollingMean_getD ys w i hi, if_neg]
    rintro ⟨-, h2⟩; omega
  refine ⟨rollingMean_length xs w, rsiSeries_length xs w,
    fun i hi => hnone xs rfl i hi, fun i hi => ?_⟩
  rw [rsiSeries_getD xs w i hi,
    hnone (gainList xs) (gainList_length xs) i (by rw [gainList_length]; exact hi),
    hnone (lossList xs) (lossList_length xs) i (by rw [lossList_length]; exact hi)]
  rfl

/-- Witness for the amended C6 at series `[1,2,3]`, window 5. -/
theorem oversized_window_all_undefined_witness :
    (rollingMean [1, 2, 3] 5).getD 0 none = none ∧
    (rsiSeries [1, 2, 3] 5).getD 2 FVal.nan = FVal.nan :=
  ⟨(oversized_window_all_undefined [1, 2, 3] 5 (by norm_num)).2.2.1 0 (by norm_num),
   (oversized_window_all_undefined [1, 2, 3] 5 (by norm_num)).2.2.2 2 (by norm_num)⟩

/-! ### Claim theorems: where the RSI becomes defined (C4) -/

/-- Counterexample to C4: with window `w = 2` the RSI of `[1,2,4]` is already
defined (value 100) at position `1 = w − 1`, although only one true delta
(`close[1] − close[0]`) exists there.  The `where`-clauses turn the NaN first
delta into gain 0 and loss 0, so the rolling means are defined from position
`w − 1` on, not from position `w`. -/
theorem rsi_defined_before_window_filled :
    (rsiSeries [1, 2, 4] 2).getD 1 FVal.nan = FVal.val 100 := by
  rw [rsiSeries_getD [1, 2, 4] 2 1 (by norm_num),
    show gainList [1, 2, 4] = [0, 1, 2] by norm_num [gainList, diffList],
    show lossList [1, 2, 4] = [0, 0, 0] by norm_num [lossList, diffList],
    rollingMean_getD [0, 1, 2] 2 1 (by norm_num),
    rollingMean_getD [0, 0, 0] 2 1 (by norm_num),
    if_pos (by norm_num : 1 ≤ 2 ∧ 2 ≤ 1 + 1), if_pos (by norm_num : 1 ≤ 2 ∧ 2 ≤ 1 + 1)]
  norm_num [windowSlice, mean, rsOf, rsiOf]

/-- C4 as amended: every RSI position strictly before index `w − 1` is
undefined (NaN); position `w − 1` can already be defined, as the
counterexample shows, because the first (NaN) delta is coerced to a zero
gain and a zero loss. -/
theorem rsi_undefined_before_window_minus_one (xs : List ℚ) (w i : Nat)
    (hi : i + 1 < w) (hlen : i < xs.length) :
    (rsiSeries xs w).getD i FVal.nan = FVal.nan := by
  rw [rsiSeries_getD xs w i hlen]
  have hg : (rollingMean (gainList xs) w).getD i none = none := by
    rw [rollingMean_getD _ w i (by rw [gainList_length]; exact hlen), if_neg]
    rintro ⟨-, h2⟩; omega
  have hl : (rollingMean (lossList xs) w).getD i none = none := by
    rw [rollingMean_getD _ w i (by rw [lossList_length]; exact hlen), if_neg]
    rintro ⟨-, h2⟩; omega
  rw [hg, hl]
  rfl

/-- Witness for the amended C4: series `[1,2,4]`, window 3, position 1. -/
theorem rsi_undefined_before_window_minus_one_witness :
    (rsiSeries [1, 2, 4] 3).getD 1 FVal.nan = FVal.nan :=
  rsi_undefined_before_window_minus_one [1, 2, 4] 3 1 (by norm_num) (by norm_num)

/-! ### Claim theorems: RSI special values (C2, C3) -/

/-- C2, evaluated on the code: for the strictly increasing series
`[1,2,3,4]` (zero average loss, positive average gain) the RSI at a filled
position is indeed 100 — the unguarded `gain/loss` produces +∞ and
`100 − 100/(1+∞) = 100`.  But for the perfectly flat series `[5,5,5,5]`
(zero average gain and loss) the RSI at the filled positions is NaN from
`0/0`, not the 50 required by the spec: the code has no guard for this
case. -/
theorem rsi_flat_is_nan_not_fifty :
    (rsiSeries [1, 2, 3, 4] 2).getD 2 FVal.nan = FVal.val 100 ∧
    (rsiSeries [5, 5, 5, 5] 2).getD 2 FVal.nan = FVal.nan ∧
    (rsiSeries [5, 5, 5, 5] 2).getD 3 FVal.nan = FVal.nan := by
  refine ⟨?_, ?_, ?_⟩
  · rw [rsiSeries_getD [1, 2, 3, 4] 2 2 (by norm_num),
      show gainList [1, 2, 3, 4] = [0, 1, 1, 1] by norm_num [gainList, diffList],
      show lossList [1, 2, 3, 4] = [0, 0, 0, 0] by norm_num [lossList, diffList],
      rollingMean_getD [0, 1, 1, 1] 2 2 (by norm_num),
      rollingMean_getD [0, 0, 0, 0] 2 2 (by norm_num),
      if_pos (by norm_num : 1 ≤ 2 ∧ 2 ≤ 2 + 1), if_pos (by norm_num : 1 ≤ 2 ∧ 2 ≤ 2 + 1)]
    norm_num [windowSlice, mean, rsOf, rsiOf]
  · rw [rsiSeries_getD [5, 5, 5, 5] 2 2 (by norm_num),
      show gainList [5, 5, 5, 5] = [0, 0, 0, 0] by norm_num [gainList, diffList],
      show lossList [5, 5, 5, 5] = [0, 0, 0, 0] by norm_num [lossList, diffList],
      rollingMean_getD [0, 0, 0, 0] 2 2 (by norm_num),
      if_pos (by norm_num : 1 ≤ 2 ∧ 2 ≤ 2 + 1)]
    norm_num [windowSlice, mean, rsOf, rsiOf]
  · rw [rsiSeries_getD [5, 5, 5, 5] 2 3 (by norm_num),
      show gainList [5, 5, 5, 5] = [0, 0, 0, 0] by norm_num [gainList, diffList],
      show lossList [5, 5, 5, 5] = [0, 0, 0, 0] by norm_num [lossList, diffList],
      rollingMean_getD [0, 0, 0, 0] 2 3 (by norm_num),
      if_pos (by norm_num : 1 ≤ 2 ∧ 2 ≤ 3 + 1)]
    norm_num [windowSlice, mean, rsOf, rsiOf]

/-- C3, evaluated on the code: for the flat series `[7,7,7]` with window 1
the RSI is NaN at the filled positions 1 and 2 (from the unguarded `0/0`),
so a NaN — neither the undefined marker of the warm-up positions nor a real
in `[0,100]` — does reach the caller. -/
theorem rsi_nan_reaches_caller :
    (rsiSeries [7, 7, 7] 1).getD 1 FVal.nan = FVal.nan ∧
    (rsiSeries [7, 7, 7] 1).getD 2 FVal.nan = FVal.nan := by
  constructor
  · rw [rsiSeries_getD [7, 7, 7] 1 1 (by norm_num),
      show gainList [7, 7, 7] = [0, 0, 0] by norm_num [gainList, diffList],
      show lossList [7, 7, 7] = [0, 0, 0] by norm_num [lossList, diffList],
      rollingMean_getD [0, 0, 0] 1 1 (by norm_num),
      if_pos (by norm_num : 1 ≤ 1 ∧ 1 ≤ 1 + 1)]
    norm_num [windowSlice, mean, rsOf, rsiOf]
  · rw [rsiSeries_getD [7, 7, 7] 1 2 (by norm_num),
      show gainList [7, 7, 7] = [0, 0, 0] by norm_num [gainList, diffList],
      show lossList [7, 7, 7] = [0, 0, 0] by norm_num [lossList, diffList],
      rollingMean_getD [0, 0, 0] 1 2 (by norm_num),
      if_pos (by norm_num : 1 ≤ 1 ∧ 1 ≤ 2 + 1)]
    norm_num [windowSlice, mean, rsOf, rsiOf]

/-! ### Claim theorems: normalized performance (C7) -/

/-- C7: on a panel whose per-ticker adjusted-close series are non-empty and
start at a positive price, `calculate_performance` keeps ticker and length,
sets position `i` to `adj_close[i] / adj_close[0] × 100`, and the first
position is exactly 100 for every ticker. -/
theorem calculate_performance_spec (panel : List (String × List ℚ))
    (hne : ∀ p ∈ panel, p.2 ≠ [])
    (hpos : ∀ p ∈ panel, 0 < p.2.headD 0) :
    (calculate_performance panel).length = panel.length ∧
    ∀ k, k < panel.length →
      ((calculate_performance panel).getD k ("", [])).1 = (panel.getD k ("", [])).1 ∧
      ((calculate_performance panel).getD k ("", [])).2.length =
        (panel.getD k ("", [])).2.length ∧
      (∀ i, i < (panel.getD k ("", [])).2.length →
        ((calculate_performance panel).getD k ("", [])).2.getD i 0 =
          (panel.getD k ("", [])).2.getD i 0 / (panel.getD k ("", [])).2.headD 0 * 100) ∧
      ((calculate_performance panel).getD k ("", [])).2.headD 0 = 100 := by
  have hlen : (calculate_performance panel).length = panel.length := by
    simp [calculate_performance]
  refine ⟨hlen, fun k hk => ?_⟩
  have hk2 : k < (calculate_performance panel).length := by rw [hlen]; exact hk
  have hgp : panel.getD k ("", []) = panel[k] := List.getD_eq_getElem _ _ hk
  have hgc : (calculate_performance panel).getD k ("", []) =
      (panel[k].1, panel[k].2.map fun v => v / panel[k].2.headD 0 * 100) := by
    rw [List.getD_eq_getElem _ _ hk2]
    simp [calculate_performance]
  have hmem : panel[k] ∈ panel := List.getElem_mem hk
  obtain ⟨a, t, hat⟩ := List.exists_cons_of_ne_nil (hne _ hmem)
  have hapos : 0 < a := by
    have := hpos _ hmem
    rw [hat] at this
    simpa using this
  refine ⟨by rw [hgc, hgp], by rw [hgc, hgp]; simp, fun i hi => ?_, ?_⟩
  · rw [hgp] at hi
    rw [hgc, hgp]
    have hi2 : i < (panel[k].2.map fun v => v / panel[k].2.headD 0 * 100).length := by
      simpa using hi
    rw [List.getD_eq_getElem _ _ hi2, List.getD_eq_getElem _ _ hi, List.getElem_map]
  · rw [hgc, hat]
    simp [div_self (ne_of_gt hapos)]

/-- Witness for C7: panel `[("A", [4, 2, 8])]`: first normalized value 100,
second value `2/4×100 = 50`. -/
theorem calculate_performance_spec_witness :
    ((calculate_performance [("A", [4, 2, 8])]).getD 0 ("", [])).2.headD 0 = 100 ∧
    ((calculate_performance [("A", [4, 2, 8])]).getD 0 ("", [])).2.getD 1 0 = 50 := by
  have h := calculate_performance_spec [("A", [4, 2, 8])] (by simp) (by norm_num)
  obtain ⟨hfst, hlen2, hval, hhead⟩ := h.2 0 (by norm_num)
  refine ⟨hhead, ?_⟩
  rw [hval 1 (by norm_num)]
  norm_num

/-! ### Basic facts about the Pearson correlation -/

lemma sumProd_self_nonneg (xs : List ℚ) : 0 ≤ sumProd xs xs := by
  induction xs with
  | nil => simp [sumProd]
  | cons a t ih =>
      simp only [sumProd, List.zipWith_cons_cons, List.sum_cons] at *
      exact add_nonneg (mul_self_nonneg a) ih

lemma sumProd_comm (xs ys : List ℚ) : sumProd xs ys = sumProd ys xs := by
  unfold sumProd
  rw [List.zipWith_comm_of_comm _ (fun x y => mul_comm x y)]

lemma pearson?_comm (xs ys : List ℚ) : pearson? xs ys = pearson? ys xs := by
  unfold pearson?
  rw [sumProd_comm (demean xs) (demean ys),
    mul_comm (sumProd (demean xs) (demean xs)) (sumProd (demean ys) (demean ys))]

lemma pearson?_self (xs : List ℚ) (h : sumProd (demean xs) (demean xs) ≠ 0) :
    pearson? xs xs = some 1 := by
  unfold pearson?
  rw [if_neg (by rwa [mul_self_eq_zero])]
  have hpos : 0 ≤ sumProd (demean xs) (demean xs) := sumProd_self_nonneg _
  have hcast : ((sumProd (demean xs) (demean xs) * sumProd (demean xs) (demean xs) : ℚ) : ℝ)
      = (sumProd (demean xs) (demean xs) : ℝ) * (sumProd (demean xs) (demean xs) : ℝ) := by
    push_cast; ring
  rw [hcast, Real.sqrt_mul_self (by exact_mod_cast hpos),
    div_self (by exact_mod_cast h)]

lemma sumProd_eq_range (xs ys : List ℚ) :
    sumProd xs ys = ∑ j ∈ Finset.range (min xs.length ys.length),
      xs.getD j 0 * ys.getD j 0 := by
  induction xs generalizing ys with
  | nil => simp [sumProd]
  | cons a t ih =>
      cases ys with
      | nil => simp [sumProd]
      | cons b u =>
          simp only [sumProd, List.zipWith_cons_cons, List.sum_cons, List.length_cons]
          rw [show min (t.length + 1) (u.length + 1) = min t.length u.length + 1 by omega,
            Finset.sum_range_succ']
          simp only [List.getD_cons_succ, List.getD_cons_zero]
          have ih' := ih u
          unfold sumProd at ih'
          rw [← ih', add_comm]

lemma list_cauchy_schwarz (xs ys : List ℚ) :
    sumProd xs ys ^ 2 ≤ sumProd xs xs * sumProd ys ys := by
  have hxy := sumProd_eq_range xs ys
  have hx : sumProd xs xs = ∑ j ∈ Finset.range xs.length, xs.getD j 0 * xs.getD j 0 := by
    rw [sumProd_eq_range xs xs, min_self]
  have hy : sumProd ys ys = ∑ j ∈ Finset.range ys.length, ys.getD j 0 * ys.getD j 0 := by
    rw [sumProd_eq_range ys ys, min_self]
  have hcs := Finset.sum_mul_sq_le_sq_mul_sq (Finset.range (min xs.length ys.length))
    (fun j => xs.getD j 0) (fun j => ys.getD j 0)
  have hxle : ∑ j ∈ Finset.range (min xs.length ys.length), xs.getD j 0 ^ 2 ≤
      sumProd xs xs := by
    rw [hx]
    calc ∑ j ∈ Finset.range (min xs.length ys.length), xs.getD j 0 ^ 2
        ≤ ∑ j ∈ Finset.range xs.length, xs.getD j 0 ^ 2 :=
          Finset.sum_le_sum_of_subset_of_nonneg
            (Finset.range_subset.mpr (min_le_left _ _)) (fun i _ _ => sq_nonneg _)
      _ = ∑ j ∈ Finset.range xs.length, xs.getD j 0 * xs.getD j 0 := by
          simp [sq]
  have hyle : ∑ j ∈ Finset.range (min xs.length ys.length), ys.getD j 0 ^ 2 ≤
      sumProd ys ys := by
    rw [hy]
    calc ∑ j ∈ Finset.range (min xs.length ys.length), ys.getD j 0 ^ 2
        ≤ ∑ j ∈ Finset.range ys.length, ys.getD j 0 ^ 2 :=
          Finset.sum_le_sum_of_subset_of_nonneg
            (Finset.range_subset.mpr (min_le_right _ _)) (fun i _ _ => sq_nonneg _)
      _ = ∑ j ∈ Finset.range ys.length, ys.getD j 0 * ys.getD j 0 := by
          simp [sq]
  calc sumProd xs ys ^ 2
      = (∑ j ∈ Finset.range (min xs.length ys.length), xs.getD j 0 * ys.getD j 0) ^ 2 := by
        rw [hxy]
    _ ≤ (∑ j ∈ Finset.range (min xs.length ys.length), xs.getD j 0 ^ 2) *
        ∑ j ∈ Finset.range (min xs.length ys.length), ys.getD j 0 ^ 2 := hcs
    _ ≤ sumProd xs xs * sumProd ys ys :=
        mul_le_mul hxle hyle (Finset.sum_nonneg fun i _ => sq_nonneg _)
          (sumProd_self_nonneg xs)

lemma pearson?_bounds (xs ys : List ℚ) (r : ℝ) (h : pearson? xs ys = some r) :
    -1 ≤ r ∧ r ≤ 1 := by
  unfold pearson? at h
  by_cases hc : sumProd (demean xs) (demean xs) * sumProd (demean ys) (demean ys) = 0
  · rw [if_pos hc] at h
    exact absurd h (by simp)
  · rw [if_neg hc] at h
    have h' := Option.some.inj h
    have h1 : 0 ≤ sumProd (demean xs) (demean xs) := sumProd_self_nonneg _
    have h2 : 0 ≤ sumProd (demean ys) (demean ys) := sumProd_self_nonneg _
    have hdpos : 0 < sumProd (demean xs) (demean xs) * sumProd (demean ys) (demean ys) :=
      lt_of_le_of_ne (mul_nonneg h1 h2) (Ne.symm hc)
    have hdposR : (0 : ℝ) <
        ((sumProd (demean xs) (demean xs) * sumProd (demean ys) (demean ys) : ℚ) : ℝ) := by
      exact_mod_cast hdpos
    have hsq : r ^ 2 ≤ 1 := by
      rw [← h', div_pow, Real.sq_sqrt hdposR.le, div_le_one hdposR]
      exact_mod_cast list_cauchy_schwarz (demean xs) (demean ys)
    exact abs_le.mp ((sq_le_one_iff_abs_le_one r).mp hsq)

lemma calculate_correlation_length (panel : List (String × List ℚ)) :
    (calculate_correlation panel).length = panel.length := by
  simp [calculate_correlation]

lemma calculate_correlation_entry (panel : List (String × List ℚ)) (i j : Nat)
    (hi : i < panel.length) (hj : j < panel.length) :
    ((calculate_correlation panel).getD i []).getD j none =
      pearson? (panel.getD i ("", [])).2 (panel.getD j ("", [])).2 := by
  have hi2 : i < (calculate_correlation panel).length := by
    rw [calculate_correlation_length]; exact hi
  rw [List.getD_eq_getElem _ _ hi2]
  unfold calculate_correlation
  rw [List.getElem_map]
  show (panel.map fun q => pearson? panel[i].2 q.2).getD j none = _
  have hj2 : j < (panel.map fun q => pearson? panel[i].2 q.2).length := by
    rw [List.length_map]; exact hj
  rw [List.getD_eq_getElem _ _ hj2, List.getElem_map,
    List.getD_eq_getElem _ _ hi, List.getD_eq_getElem _ _ hj]

lemma calculate_correlation_row_length (panel : List (String × List ℚ)) (i : Nat)
    (hi : i < panel.length) :
    ((calculate_correlation panel).getD i []).length = panel.length := by
  have hi2 : i < (calculate_correlation panel).length := by
    rw [calculate_correlation_length]; exact hi
  rw [List.getD_eq_getElem _ _ hi2]
  unfold calculate_correlation
  rw [List.getElem_map]
  show (panel.map fun q => pearson? panel[i].2 q.2).length = _
  rw [List.length_map]

lemma calculate_correlation_entry_none (panel : List (String × List ℚ)) (i j : Nat)
    (h : panel.length ≤ i ∨ panel.length ≤ j) :
    ((calculate_correlation panel).getD i []).getD j none = none := by
  by_cases hi : i < panel.length
  · have hj : panel.length ≤ j := by omega
    rw [List.getD_eq_default]
    rw [calculate_correlation_row_length panel i hi]
    exact hj
  · have hrow : (calculate_correlation panel).getD i [] = [] :=
      List.getD_eq_default _ _ (by rw [calculate_correlation_length]; omega)
    rw [hrow]
    simp

/-! ### Claim theorems: correlation (C5, C8, C10) -/

/-- Counterexample to C5: `calculate_correlation` does not signal anything
for a 1-ticker panel — it returns the degenerate 1×1 matrix `[[1.0]]`.
The `< 2` check lives in the rendering function, not in the engine. -/
theorem correlation_singleton_returns_matrix :
    calculate_correlation [("A", [1, 2])] = [[some 1]] := by
  have h : pearson? [1, 2] [1, 2] = some 1 :=
    pearson?_self [1, 2] (by norm_num [sumProd, demean, mean])
  simp [calculate_correlation, h]

/-- C5 as amended: `calculate_correlation` returns an `n × n` matrix for
every panel of `n` tickers (including `n = 1`), and it is the renderer,
`plot_correlation_heatmap`, that skips (with a warning) exactly when the
matrix has fewer than 2 rows. -/
theorem correlation_matrix_shape_and_renderer_guard (panel : List (String × List ℚ)) :
    (calculate_correlation panel).length = panel.length ∧
    (∀ row ∈ calculate_correlation panel, row.length = panel.length) ∧
    (plot_correlation_heatmap_skips (calculate_correlation panel) ↔ panel.length < 2) := by
  refine ⟨calculate_correlation_length panel, ?_, ?_⟩
  · intro row hrow
    unfold calculate_correlation at hrow
    obtain ⟨p, hp, rfl⟩ := List.mem_map.mp hrow
    rw [List.length_map]
  · unfold plot_correlation_heatmap_skips
    rw [calculate_correlation_length]

/-- Counterexample to C8: for a panel of two constant series the code's
correlation matrix is all NaN — including the diagonal, which pandas does
not pin to 1.0 when the divisor `√(Σdx²·Σdy²)` is zero. -/
theorem correlation_constant_diagonal_nan :
    calculate_correlation [("A", [1, 1]), ("B", [1, 1])] =
      [[none, none], [none, none]] := by
  have h : pearson? [1, 1] [1, 1] = none := by
    unfold pearson?
    rw [if_pos]
    norm_num [sumProd, demean, mean]
  simp [calculate_correlation, h]

/-- C8 as amended: on a panel of at least two tickers whose close series
are all non-constant (nonzero centered sum of squares), the correlation
matrix is symmetric, has every diagonal entry exactly 1.0, and two tickers
with identical close series have off-diagonal entry exactly 1.0. -/
theorem correlation_symmetric_identical_one (panel : List (String × List ℚ))
    (hn : 2 ≤ panel.length)
    (hnc : ∀ p ∈ panel, sumProd (demean p.2) (demean p.2) ≠ 0) :
    (∀ i j, ((calculate_correlation panel).getD i []).getD j none =
            ((calculate_correlation panel).getD j []).getD i none) ∧
    (∀ i, i < panel.length →
      ((calculate_correlation panel).getD i []).getD i none = some 1) ∧
    (∀ i j, i < panel.length → j < panel.length →
      (panel.getD i ("", [])).2 = (panel.getD j ("", [])).2 →
      ((calculate_correlation panel).getD i []).getD j none = some 1) := by
  have hident : ∀ i j, i < panel.length → j < panel.length →
      (panel.getD i ("", [])).2 = (panel.getD j ("", [])).2 →
      ((calculate_correlation panel).getD i []).getD j none = some 1 := by
    intro i j hi hj heq
    rw [calculate_correlation_entry panel i j hi hj, heq]
    refine pearson?_self _ (hnc _ ?_)
    rw [List.getD_eq_getElem _ _ hj]
    exact List.getElem_mem hj
  refine ⟨fun i j => ?_, fun i hi => hident i i hi hi rfl, hident⟩
  by_cases hi : i < panel.length
  · by_cases hj : j < panel.length
    · rw [calculate_correlation_entry panel i j hi hj,
        calculate_correlation_entry panel j i hj hi]
      exact pearson?_comm _ _
    · rw [calculate_correlation_entry_none panel i j (Or.inr (by omega)),
        calculate_correlation_entry_none panel j i (Or.inl (by omega))]
  · rw [calculate_correlation_entry_none panel i j (Or.inl (by omega)),
      calculate_correlation_entry_none panel j i (Or.inr (by omega))]

/-- Witness for the amended C8: two tickers with the identical non-constant
series `[1, 2]`: diagonal entry 1.0, symmetric off-diagonal entries, and
off-diagonal value 1.0 for the identical pair. -/
theorem correlation_symmetric_identical_one_witness :
    ((calculate_correlation [("A", [1, 2]), ("B", [1, 2])]).getD 0 []).getD 0 none =
      some 1 ∧
    ((calculate_correlation [("A", [1, 2]), ("B", [1, 2])]).getD 0 []).getD 1 none =
      ((calculate_correlation [("A", [1, 2]), ("B", [1, 2])]).getD 1 []).getD 0 none ∧
    ((calculate_correlation [("A", [1, 2]), ("B", [1, 2])]).getD 0 []).getD 1 none =
      some 1 := by
  have h := correlation_symmetric_identical_one [("A", [1, 2]), ("B", [1, 2])]
    (by norm_num)
    (by
      intro p hp
      rcases List.mem_cons.mp hp with h1 | h1
      · rw [h1]; norm_num [sumProd, demean, mean]
      · rcases List.mem_cons.mp h1 with h2 | h2
        · rw [h2]; norm_num [sumProd, demean, mean]
        · simp at h2)
  exact ⟨h.2.1 0 (by norm_num), h.1 0 1,
    h.2.2 0 1 (by norm_num) (by norm_num) (by simp)⟩

/-- C10: every defined entry of the correlation matrix of a panel with
non-constant close series lies in `[−1, 1]` (exact Pearson coefficients;
the NaN entries of constant series are the `none`s excluded here). -/
theorem correlation_entries_bounded (panel : List (String × List ℚ))
    (hnc : ∀ p ∈ panel, sumProd (demean p.2) (demean p.2) ≠ 0) :
    ∀ i j r, ((calculate_correlation panel).getD i []).getD j none = some r →
      -1 ≤ r ∧ r ≤ 1 := by
  intro i j r hr
  by_cases hi : i < panel.length
  · by_cases hj : j < panel.length
    · rw [calculate_correlation_entry panel i j hi hj] at hr
      exact pearson?_bounds _ _ r hr
    · rw [calculate_correlation_entry_none panel i j (Or.inr (by omega))] at hr
      exact absurd hr (by simp)
  · rw [calculate_correlation_entry_none panel i j (Or.inl (by omega))] at hr
    exact absurd hr (by simp)

/-- Witness for C10: the defined entry (0,1) of the identical-pair panel is
1, and `correlation_entries_bounded` places it in `[−1, 1]`. -/
theorem correlation_entries_bounded_witness : (-1 : ℝ) ≤ 1 ∧ (1 : ℝ) ≤ 1 := by
  have hentry : ((calculate_correlation [("A", [1, 2]), ("B", [1, 2])]).getD 0 []).getD 1
      none = some 1 := by
    rw [calculate_correlation_entry [("A", [1, 2]), ("B", [1, 2])] 0 1
      (by norm_num) (by norm_num)]
    show pearson? [1, 2] [1, 2] = some 1
    exact pearson?_self [1, 2] (by norm_num [sumProd, demean, mean])
  exact correlation_entries_bounded [("A", [1, 2]), ("B", [1, 2])]
    (by
      intro p hp
      rcases List.mem_cons.mp hp with h1 | h1
      · rw [h1]; norm_num [sumProd, demean, mean]
      · rcases List.mem_cons.mp h1 with h2 | h2
        · rw [h2]; norm_num [sumProd, demean, mean]
        · simp at h2)
    0 1 1 hentry

/-! ### Basic facts about column assignment on frames -/

lemma find?_map_replace (cols : List ((String × String) × List (Option ℚ)))
    (k : String × String) (v : List (Option ℚ))
    (h : (cols.find? fun c => c.1 == k).isSome) :
    ((cols.map fun c => if c.1 == k then (k, v) else c).find? fun c => c.1 == k) =
      some (k, v) := by
  induction cols with
  | nil => simp at h
  | cons c t ih =>
      simp only [List.map_cons]
      by_cases hc : (c.1 == k) = true
      · rw [if_pos hc]
        exact List.find?_cons_of_pos _ (by simp)
      · rw [if_neg hc]
        rw [List.find?_cons_of_neg (p := fun c : (String × String) × List (Option ℚ) => c.1 == k) _ hc]
        refine ih ?_
        rwa [List.find?_cons_of_neg (p := fun c : (String × String) × List (Option ℚ) => c.1 == k) _ hc] at h

lemma find?_map_replace_ne (cols : List ((String × String) × List (Option ℚ)))
    (k k' : String × String) (v : List (Option ℚ)) (hne : k' ≠ k) :
    ((cols.map fun c => if c.1 == k then (k, v) else c).find? fun c => c.1 == k') =
      cols.find? fun c => c.1 == k' := by
  induction cols with
  | nil => rfl
  | cons c t ih =>
      simp only [List.map_cons]
      by_cases hc : (c.1 == k) = true
      · rw [if_pos hc]
        have hck : c.1 = k := eq_of_beq hc
        have h1 : ((k, v).1 == k') = false := beq_eq_false_iff_ne.mpr fun hh => hne hh.symm
        have h2 : (c.1 == k') = false := by rw [hck]; exact h1
        rw [List.find?_cons_of_neg (p := fun c : (String × String) × List (Option ℚ) => c.1 == k') _ (by simp [h1]),
          List.find?_cons_of_neg (p := fun c : (String × String) × List (Option ℚ) => c.1 == k') _ (by simp [h2]), ih]
      · rw [if_neg hc]
        by_cases hc' : (c.1 == k') = true
        · rw [List.find?_cons_of_pos (p := fun c : (String × String) × List (Option ℚ) => c.1 == k') _ hc',
            List.find?_cons_of_pos (p := fun c : (String × String) × List (Option ℚ) => c.1 == k') _ hc']
        · rw [List.find?_cons_of_neg (p := fun c : (String × String) × List (Option ℚ) => c.1 == k') _ hc',
            List.find?_cons_of_neg (p := fun c : (String × String) × List (Option ℚ) => c.1 == k') _ hc', ih]

lemma getCol_setCol_self (f : Frame) (k : String × String) (v : List (Option ℚ)) :
    getCol (setCol f k v) k = some v := by
  unfold setCol
  by_cases hf : (f.cols.find? fun c => c.1 == k).isSome = true
  · rw [if_pos hf]
    show ((f.cols.map fun c => if c.1 == k then (k, v) else c).find?
      fun c => c.1 == k).map Prod.snd = some v
    rw [find?_map_replace f.cols k v hf]
    rfl
  · rw [if_neg hf]
    show ((f.cols ++ [(k, v)]).find? fun c => c.1 == k).map Prod.snd = some v
    rw [List.find?_append, Option.not_isSome_iff_eq_none.mp hf, Option.none_or,
      List.find?_cons_of_pos _ (by simp)]
    rfl

lemma getCol_setCol_ne (f : Frame) (k k' : String × String) (v : List (Option ℚ))
    (hne : k' ≠ k) : getCol (setCol f k v) k' = getCol f k' := by
  unfold setCol
  by_cases hf : (f.cols.find? fun c => c.1 == k).isSome = true
  · rw [if_pos hf]
    show ((f.cols.map fun c => if c.1 == k then (k, v) else c).find?
      fun c => c.1 == k').map Prod.snd = _
    rw [find?_map_replace_ne f.cols k k' v hne]
    rfl
  · rw [if_neg hf]
    show ((f.cols ++ [(k, v)]).find? fun c => c.1 == k').map Prod.snd = _
    rw [List.find?_append]
    have h1 : ((k, v).1 == k') = false := beq_eq_false_iff_ne.mpr fun hh => hne hh.symm
    rw [show (List.find? (fun c => c.1 == k') [(k, v)]) = none by
        rw [List.find?_cons_of_neg _ (by rw [h1]; simp)]; rfl,
      Option.or_none]
    rfl

/-! ### Claim theorems: frame effects (C9) -/

/-- Counterexample to C9: `calculate_moving_averages` does not leave its
input unchanged — the frame observable after the call has gained an
`SMA_1` column (the code assigns into `data` and returns it; callers pass
`.copy()` precisely to protect the original). -/
theorem calculate_moving_averages_mutates_frame :
    calculate_moving_averages (Frame.mk [(("A", "Close"), [some 1, some 2])]) "A" [1] ≠
      Frame.mk [(("A", "Close"), [some 1, some 2])] := by
  decide

/-- C9 as amended: `calculate_moving_averages` writes the SMA column into
the frame it was handed and returns that same frame: after the call the
`(ticker, SMA_w)` column holds the rolling mean of the Close column and
every other column is as before.  (`calculate_performance` and
`calculate_correlation`, by contrast, build fresh results.) -/
theorem calculate_moving_averages_frame_effect (f : Frame) (t : String) (w : Nat) :
    getCol (calculate_moving_averages f t [w]) (t, smaName w) =
      some (rollingMeanO ((getCol f (t, "Close")).getD []) w) ∧
    ∀ k, k ≠ (t, smaName w) → getCol (calculate_moving_averages f t [w]) k = getCol f k := by
  have hcalc : calculate_moving_averages f t [w] =
      setCol f (t, smaName w) (rollingMeanO ((getCol f (t, "Close")).getD []) w) := rfl
  rw [hcalc]
  exact ⟨getCol_setCol_self f _ _, fun k hk => getCol_setCol_ne f _ k _ hk⟩

/-- Witness for the amended C9 on a concrete one-column frame: the Close
column is preserved and the new SMA column is present. -/
theorem calculate_moving_averages_frame_effect_witness :
    getCol (calculate_moving_averages (Frame.mk [(("A", "Close"), [some 1, some 2])])
      "A" [1]) ("A", "Close") = some [some 1, some 2] := by
  rw [(calculate_moving_averages_frame_effect
    (Frame.mk [(("A", "Close"), [some 1, some 2])]) "A" 1).2 ("A", "Close") (by decide)]
  decide

end StockToolkit
